import Mathlib

/-!
Verification development for the clawdbot streaming pipeline.

This file gives a shallow embedding of the stream-normalisation and
wire-encoding code of the repository:

* a model of the Python json module (loads and dumps) as used by the
  provider when flushing reassembled tool-call arguments;
* the frame-processing loop of OpenAIProvider.stream
  (clawdbot/agents/providers/openai_provider.py);
* the SSE encoder stream_response and the request-preparation logic of
  the chat_completions endpoint (clawdbot/api/openai_compat.py);
* the skill matching of SkillProvider.find_skills
  (clawdbot/agents/tools/skill_loader.py).

Theorems about these definitions settle the frozen claims about the
specification.
-/

namespace Clawdbot

/-! ## JSON values

Model of the data handled by the Python json module.  Numbers are either
integers (constructor num) or non-integral numerals, which are kept as
their source lexeme (constructor fnum) since the claims never depend on
float arithmetic; NaN and Infinity, which Python json accepts, are also
fnum values.  Object member lists keep insertion order, as Python dicts
do, and a duplicate key overwrites the value in place (last wins, first
position kept), as dict assignment does. -/

inductive Json where
  | null : Json
  | bool : Bool → Json
  | num : Int → Json
  | fnum : String → Json
  | str : String → Json
  | arr : List Json → Json
  | obj : List (String × Json) → Json

/-- True exactly on object values, the images of Python dicts
(isinstance(x, dict)). -/
def Json.isObj : Json → Bool
  | .obj _ => true
  | _ => false

/-! ## json.dumps

Serialisation following json.dumps with its default options: separators
are a comma-space and a colon-space, ensure_ascii escapes every
character outside the printable ASCII range.  The recursion is driven by
a fuel argument so that every evaluation is plain structural recursion
on a natural number; the wrapper jsonDumps supplies enough fuel for any
value. -/

/-- Lower-case hexadecimal digit. -/
def hexDigitChar (n : Nat) : Char :=
  if n < 10 then Char.ofNat (48 + n) else Char.ofNat (87 + (n % 16))

/-- Four-digit lower-case hexadecimal rendering, as in a backslash-u
escape. -/
def hex4 (n : Nat) : String :=
  String.mk [hexDigitChar (n / 4096 % 16), hexDigitChar (n / 256 % 16),
    hexDigitChar (n / 16 % 16), hexDigitChar (n % 16)]

/-- Escape of one character inside a JSON string literal, following
json.dumps with ensure_ascii: the two-character escapes for quote,
backslash and the common control characters, backslash-u escapes for the
remaining control characters and for every character above tilde,
surrogate pairs for characters outside the basic multilingual plane. -/
def escapeJsonChar (c : Char) : String :=
  if c = '"' then "\\\""
  else if c = '\\' then "\\\\"
  else if c = '\n' then "\\n"
  else if c = '\r' then "\\r"
  else if c = '\t' then "\\t"
  else if c = '\x08' then "\\b"
  else if c = '\x0c' then "\\f"
  else if c.toNat < 0x20 then "\\u" ++ hex4 c.toNat
  else if c.toNat ≤ 0x7e then String.singleton c
  else if c.toNat ≤ 0xffff then "\\u" ++ hex4 c.toNat
  else
    let v := c.toNat - 0x10000
    "\\u" ++ hex4 (0xd800 + v / 0x400) ++ "\\u" ++ hex4 (0xdc00 + v % 0x400)

/-- JSON string literal for a Lean string (quotes plus escaped body). -/
def dumpJsonString (s : String) : String :=
  "\"" ++ String.join (s.toList.map escapeJsonChar) ++ "\""

mutual

/-- json.dumps with default options. -/
def jsonDumps : Json → String
  | .null => "null"
  | .bool true => "true"
  | .bool false => "false"
  | .num n => toString n
  | .fnum lexeme => lexeme
  | .str s => dumpJsonString s
  | .arr xs => "[" ++ jsonDumpsElems xs ++ "]"
  | .obj ms => "\x7b" ++ jsonDumpsMembers ms ++ "\x7d"
  termination_by structural j => j

/-- Array elements, joined by the default comma-space separator. -/
def jsonDumpsElems : List Json → String
  | [] => ""
  | [x] => jsonDumps x
  | x :: xs => jsonDumps x ++ ", " ++ jsonDumpsElems xs
  termination_by structural l => l

/-- Object members, key colon-space value, joined by comma-space. -/
def jsonDumpsMembers : List (String × Json) → String
  | [] => ""
  | [kv] => dumpJsonString kv.1 ++ ": " ++ jsonDumps kv.2
  | kv :: ms => dumpJsonString kv.1 ++ ": " ++ jsonDumps kv.2 ++ ", " ++
      jsonDumpsMembers ms
  termination_by structural l => l

end

/-! ## json.loads

Recursive-descent parser following the Python json decoder in its
default strict mode: the four JSON whitespace characters are skipped
between tokens, numbers follow the decoder regular expression
(no leading zeros, optional fraction and exponent), NaN and the two
Infinity forms are accepted, raw control characters inside strings are
rejected, backslash-u surrogate pairs are combined, and trailing input
after the top-level value is an error.  Fuel makes the recursion
structural; jsonLoads supplies sufficient fuel. -/

/-- The whitespace characters skipped by the json decoder. -/
def isJsonWs (c : Char) : Bool :=
  c = ' ' || c = '\t' || c = '\n' || c = '\r'

/-- Drop leading JSON whitespace. -/
def skipWs : List Char → List Char
  | [] => []
  | c :: cs => if isJsonWs c then skipWs cs else c :: cs

/-- Value of one hexadecimal digit. -/
def hexVal (c : Char) : Option Nat :=
  if '0' ≤ c ∧ c ≤ '9' then some (c.toNat - 48)
  else if 'a' ≤ c ∧ c ≤ 'f' then some (c.toNat - 87)
  else if 'A' ≤ c ∧ c ≤ 'F' then some (c.toNat - 55)
  else none

/-- Read four hexadecimal digits (the payload of a backslash-u
escape). -/
def parseU4 : List Char → Option (Nat × List Char)
  | a :: b :: c :: d :: rest => do
      let x ← hexVal a
      let y ← hexVal b
      let z ← hexVal c
      let w ← hexVal d
      pure (((x * 16 + y) * 16 + z) * 16 + w, rest)
  | _ => none

/-- Body of a JSON string literal, after the opening quote.  The strict
decoder rejects raw control characters; a backslash-u high surrogate
followed by a backslash-u low surrogate is combined into one scalar
value (lone surrogates, which Python strings can hold but Lean
characters cannot, fall back to the replacement performed by
Char.ofNat and are not used by any theorem below). -/
def parseStringBody : Nat → String → List Char → Option (String × List Char)
  | 0, _, _ => none
  | _, _, [] => none
  | fuel + 1, acc, c :: rest =>
    if c = '"' then some (acc, rest)
    else if c = '\\' then
      match rest with
      | [] => none
      | e :: rest2 =>
        if e = '"' then parseStringBody fuel (acc.push '"') rest2
        else if e = '\\' then parseStringBody fuel (acc.push '\\') rest2
        else if e = '/' then parseStringBody fuel (acc.push '/') rest2
        else if e = 'b' then parseStringBody fuel (acc.push '\x08') rest2
        else if e = 'f' then parseStringBody fuel (acc.push '\x0c') rest2
        else if e = 'n' then parseStringBody fuel (acc.push '\n') rest2
        else if e = 'r' then parseStringBody fuel (acc.push '\r') rest2
        else if e = 't' then parseStringBody fuel (acc.push '\t') rest2
        else if e = 'u' then
          match parseU4 rest2 with
          | none => none
          | some (n, rest3) =>
            if 0xd800 ≤ n ∧ n ≤ 0xdbff then
              match rest3 with
              | '\\' :: 'u' :: rest4 =>
                match parseU4 rest4 with
                | some (m, rest5) =>
                  if 0xdc00 ≤ m ∧ m ≤ 0xdfff then
                    parseStringBody fuel
                      (acc.push (Char.ofNat
                        (0x10000 + (n - 0xd800) * 0x400 + (m - 0xdc00)))) rest5
                  else parseStringBody fuel (acc.push (Char.ofNat n)) rest3
                | none => parseStringBody fuel (acc.push (Char.ofNat n)) rest3
              | _ => parseStringBody fuel (acc.push (Char.ofNat n)) rest3
            else parseStringBody fuel (acc.push (Char.ofNat n)) rest3
        else none
    else if c.toNat < 0x20 then none
    else parseStringBody fuel (acc.push c) rest

/-- Digits to a natural number. -/
def digitsToNat (ds : List Char) : Nat :=
  ds.foldl (fun acc c => acc * 10 + (c.toNat - 48)) 0

/-- Number token, following the decoder regular expression: an optional
minus, an integer part that is zero or has no leading zero, an optional
fraction, an optional exponent.  A purely integral lexeme becomes num;
any fraction or exponent keeps the lexeme as fnum. -/
def parseNumber (cs : List Char) : Option (Json × List Char) :=
  let negAndRest : Bool × List Char :=
    match cs with
    | '-' :: t => (true, t)
    | _ => (false, cs)
  let neg := negAndRest.1
  let cs1 := negAndRest.2
  match cs1 with
  | [] => none
  | c :: t =>
    if !c.isDigit then none
    else
      let intAndRest : List Char × List Char :=
        if c = '0' then ([c], t) else cs1.span (fun d => d.isDigit)
      let intPart := intAndRest.1
      let rest := intAndRest.2
      let fracAndRest : List Char × List Char :=
        match rest with
        | '.' :: t2 =>
          let ds := t2.takeWhile (fun d => d.isDigit)
          if ds = [] then ([], rest)
          else ('.' :: ds, t2.dropWhile (fun d => d.isDigit))
        | _ => ([], rest)
      let fracLex := fracAndRest.1
      let rest2 := fracAndRest.2
      let expAndRest : List Char × List Char :=
        match rest2 with
        | e :: t3 =>
          if e = 'e' ∨ e = 'E' then
            let signAndRest : List Char × List Char :=
              match t3 with
              | s :: t4 => if s = '+' ∨ s = '-' then ([s], t4) else ([], t3)
              | [] => ([], t3)
            let ds := signAndRest.2.takeWhile (fun d => d.isDigit)
            if ds = [] then ([], rest2)
            else (e :: (signAndRest.1 ++ ds),
              signAndRest.2.dropWhile (fun d => d.isDigit))
          else ([], rest2)
        | [] => ([], rest2)
      let expLex := expAndRest.1
      let rest3 := expAndRest.2
      if fracLex = [] ∧ expLex = [] then
        let n : Int := Int.ofNat (digitsToNat intPart)
        some (.num (if neg then -n else n), rest)
      else
        some (.fnum (String.mk
          ((if neg then ['-'] else []) ++ intPart ++ fracLex ++ expLex)), rest3)

/-- Insert a key-value pair into an object member list the way Python
dict assignment does: an existing key is overwritten in place, a new key
goes to the end. -/
def objInsert (kvs : List (String × Json)) (k : String) (v : Json) :
    List (String × Json) :=
  if kvs.any (fun p => p.1 = k) then
    kvs.map (fun p => if p.1 = k then (k, v) else p)
  else kvs ++ [(k, v)]

mutual

/-- One JSON value, positioned at its first character. -/
def parseValue : Nat → List Char → Option (Json × List Char)
  | 0, _ => none
  | fuel + 1, cs =>
    match cs with
    | [] => none
    | '"' :: rest =>
        match parseStringBody (rest.length + 1) "" rest with
        | some (s, rest2) => some (.str s, rest2)
        | none => none
    | '\x7b' :: rest =>
        match skipWs rest with
        | '\x7d' :: rest2 => some (.obj [], rest2)
        | cs2 => parseMembers fuel [] cs2
    | '[' :: rest =>
        match skipWs rest with
        | ']' :: rest2 => some (.arr [], rest2)
        | cs2 => parseElems fuel [] cs2
    | 'n' :: 'u' :: 'l' :: 'l' :: rest => some (.null, rest)
    | 't' :: 'r' :: 'u' :: 'e' :: rest => some (.bool true, rest)
    | 'f' :: 'a' :: 'l' :: 's' :: 'e' :: rest => some (.bool false, rest)
    | 'N' :: 'a' :: 'N' :: rest => some (.fnum "NaN", rest)
    | 'I' :: 'n' :: 'f' :: 'i' :: 'n' :: 'i' :: 't' :: 'y' :: rest =>
        some (.fnum "Infinity", rest)
    | '-' :: 'I' :: 'n' :: 'f' :: 'i' :: 'n' :: 'i' :: 't' :: 'y' :: rest =>
        some (.fnum "-Infinity", rest)
    | _ => parseNumber cs

/-- Elements of a non-empty array, positioned at the first element. -/
def parseElems : Nat → List Json → List Char → Option (Json × List Char)
  | 0, _, _ => none
  | fuel + 1, acc, cs =>
    match parseValue fuel cs with
    | none => none
    | some (v, rest) =>
      match skipWs rest with
      | ',' :: rest2 => parseElems fuel (acc ++ [v]) (skipWs rest2)
      | ']' :: rest2 => some (.arr (acc ++ [v]), rest2)
      | _ => none

/-- Members of a non-empty object, positioned at the first key. -/
def parseMembers : Nat → List (String × Json) → List Char →
    Option (Json × List Char)
  | 0, _, _ => none
  | fuel + 1, acc, cs =>
    match cs with
    | '"' :: rest =>
      match parseStringBody (rest.length + 1) "" rest with
      | none => none
      | some (k, rest2) =>
        match skipWs rest2 with
        | ':' :: rest3 =>
          match parseValue fuel (skipWs rest3) with
          | none => none
          | some (v, rest4) =>
            match skipWs rest4 with
            | ',' :: rest5 => parseMembers fuel (objInsert acc k v) (skipWs rest5)
            | '\x7d' :: rest5 => some (.obj (objInsert acc k v), rest5)
            | _ => none
        | _ => none
    | _ => none

end

/-- json.loads: parse one value, allowing surrounding whitespace and
rejecting trailing input; none models a raised JSONDecodeError. -/
def jsonLoads (s : String) : Option Json :=
  let cs := skipWs s.toList
  match parseValue (2 * cs.length + 4) cs with
  | some (j, rest) => if skipWs rest = [] then some j else none
  | none => none

/-! ## Python truthiness helpers -/

/-- Truthiness of an optional string: None and the empty string are
falsy, every other string is truthy. -/
def pyTruthy : Option String → Bool
  | none => false
  | some s => !(s == "")

/-- The Python expression x or d for an optional string x: the string
when truthy, the default otherwise (used for tool_call.id). -/
def pyOrStr (x : Option String) (d : String) : String :=
  match x with
  | some s => if s = "" then d else s
  | none => d

/-! ## Upstream frames

Shapes of the raw streaming chunks consumed by OpenAIProvider.stream,
restricted to the attributes the loop reads: the first element of
choices with its delta (content and tool_calls) and finish_reason, and
the side-channel usage and system_fingerprint attributes of the chunk
itself. -/

/-- Token usage payload of an upstream chunk (prompt_tokens,
completion_tokens, total_tokens). -/
structure UsageData where
  prompt_tokens : Int
  completion_tokens : Int
  total_tokens : Int

/-- The function part of a streamed tool-call delta; both fields are
optional fragments. -/
structure FunctionDelta where
  name : Option String
  arguments : Option String

/-- One tool-call delta carried by a frame, keyed by index. -/
structure ToolCallDelta where
  index : Nat
  id : Option String
  function : Option FunctionDelta

/-- The delta of a streamed choice. -/
structure ChoiceDelta where
  content : Option String
  tool_calls : Option (List ToolCallDelta)

/-- One element of the choices array of a frame. -/
structure StreamChoice where
  delta : ChoiceDelta
  finish_reason : Option String

/-- One raw upstream frame. -/
structure StreamChunk where
  choices : List StreamChoice
  usage : Option UsageData
  system_fingerprint : Option String

/-! ## Canonical events

The LLMResponse values yielded by OpenAIProvider.stream, as a closed
sum over the type tags the provider uses. -/

/-- The arguments field of an emitted tool call: the code stores
json.dumps of the parsed value when that value is a dict, and passes the
parsed non-dict value through unchanged. -/
inductive ArgumentsValue where
  | text : String → ArgumentsValue
  | raw : Json → ArgumentsValue

/-- True when the arguments field is a JSON text (the dict case). -/
def ArgumentsValue.isJsonText : ArgumentsValue → Bool
  | .text _ => true
  | .raw _ => false

/-- One finalized tool call as placed in the tool_calls list of the
flushed event; the type field is always the constant "function". -/
structure ToolCallOut where
  id : String
  name : String
  arguments : ArgumentsValue

/-- The canonical events yielded by the provider loop. -/
inductive LLMResponse where
  | text_delta : String → LLMResponse
  | tool_call : List ToolCallOut → LLMResponse
  | done : String → Option UsageData → LLMResponse
  | metadata : String → LLMResponse
  | usage : UsageData → LLMResponse
  | error : String → LLMResponse

/-! ## Reassembly state

tool_calls_buffer is a Python dict from index to an accumulator with id,
name and arguments.  A dict preserves insertion order and an update
keeps the position of the key, so the model is an association list where
new indices are appended and existing indices are updated in place. -/

/-- One accumulator of tool_calls_buffer. -/
structure BufferEntry where
  id : String
  name : String
  arguments : String

/-- The buffer: index to accumulator, in insertion order. -/
abbrev ToolCallsBuffer := List (Nat × BufferEntry)

/-- Dict lookup by index. -/
def bufFind (buf : ToolCallsBuffer) (idx : Nat) : Option BufferEntry :=
  match List.find? (fun p => p.1 == idx) buf with
  | some p => some p.2
  | none => none

/-- Dict update in place: apply f to the entry stored at idx. -/
def bufMod (buf : ToolCallsBuffer) (idx : Nat) (f : BufferEntry → BufferEntry) :
    ToolCallsBuffer :=
  List.map (fun p => if p.1 = idx then (p.1, f p.2) else p) buf

/-- Lines 129 to 134: initialize the accumulator for a new index with
tool_call.id or the synthesized call_N id; an index already present is
left untouched (in particular its id is never overwritten by later
deltas). -/
def initBuffer (buf : ToolCallsBuffer) (tc : ToolCallDelta) : ToolCallsBuffer :=
  match bufFind buf tc.index with
  | some _ => buf
  | none =>
    buf ++ [(tc.index, ⟨pyOrStr tc.id ("call_" ++ toString tc.index), "", ""⟩)]

/-- Lines 137 and 138: overwrite the name when the delta supplies a
truthy name. -/
def applyNameDelta (buf : ToolCallsBuffer) (tc : ToolCallDelta) :
    ToolCallsBuffer :=
  match tc.function with
  | some f =>
    if pyTruthy f.name then
      bufMod buf tc.index (fun e => ⟨e.id, f.name.getD "", e.arguments⟩)
    else buf
  | none => buf

/-- Lines 141 and 142: append the arguments fragment when the delta
supplies a truthy fragment. -/
def applyArgsDelta (buf : ToolCallsBuffer) (tc : ToolCallDelta) :
    ToolCallsBuffer :=
  match tc.function with
  | some f =>
    if pyTruthy f.arguments then
      bufMod buf tc.index
        (fun e => ⟨e.id, e.name, e.arguments ++ f.arguments.getD ""⟩)
    else buf
  | none => buf

/-- Processing of one tool-call delta, lines 125 to 142 of
openai_provider.py: initialization, then the name overwrite, then the
arguments append. -/
def applyToolCallDelta (buf : ToolCallsBuffer) (tc : ToolCallDelta) :
    ToolCallsBuffer :=
  applyArgsDelta (applyNameDelta (initBuffer buf tc) tc) tc

/-- The tool-call deltas of a choice applied in order (the for loop over
delta.tool_calls). -/
def applyChoiceDeltas (buf : ToolCallsBuffer) (choice : StreamChoice) :
    ToolCallsBuffer :=
  match choice.delta.tool_calls with
  | some tcs => tcs.foldl applyToolCallDelta buf
  | none => buf

/-! ## Flushing -/

/-- Lines 152 to 155: parse the accumulated arguments, substituting the
empty dict for an empty accumulator and for a JSONDecodeError. -/
def pyParseArgs (s : String) : Json :=
  if s = "" then .obj []
  else
    match jsonLoads s with
    | some j => j
    | none => .obj []

/-- Line 163: the emitted arguments are json.dumps of the parsed value
when it is a dict, and the parsed value itself otherwise. -/
def flushArguments (s : String) : ArgumentsValue :=
  match pyParseArgs s with
  | .obj o => .text (jsonDumps (.obj o))
  | j => .raw j

/-- One accumulator turned into the emitted tool-call record. -/
def flushEntry (e : BufferEntry) : ToolCallOut :=
  ⟨e.id, e.name, flushArguments e.arguments⟩

/-! ## The frame loop -/

/-- Lines 118 to 121: a non-None content delta yields one text_delta
event, also when the content is the empty string. -/
def textEvents (choice : StreamChoice) : List LLMResponse :=
  match choice.delta.content with
  | some c => [.text_delta c]
  | none => []

/-- Lines 145 to 176: on a truthy finish reason, one tool_call event
carrying every accumulator of the (already delta-updated) buffer when it
is non-empty, then one done event carrying the finish reason and the
usage attribute of the same frame. -/
def finishEvents (buf : ToolCallsBuffer) (choice : StreamChoice)
    (u : Option UsageData) : List LLMResponse :=
  if pyTruthy choice.finish_reason then
    (if buf.isEmpty then []
     else [.tool_call (buf.map (fun p => flushEntry p.2))]) ++
    [.done (choice.finish_reason.getD "") u]
  else []

/-- Lines 179 and 180: a truthy system_fingerprint yields a metadata
event. -/
def fingerprintEvents (fp : Option String) : List LLMResponse :=
  match fp with
  | some f => if f = "" then [] else [.metadata f]
  | none => []

/-- Lines 182 to 189: a present usage attribute yields a usage event. -/
def usageEvents (u : Option UsageData) : List LLMResponse :=
  match u with
  | some x => [.usage x]
  | none => []

/-- One iteration of the async-for loop of OpenAIProvider.stream over a
frame: a frame with an empty choices array is skipped whole (the
continue on line 111); otherwise the first choice is read, its content
and tool-call deltas are handled, then the finish reason, then the
side-channel fingerprint and usage of the same frame, in the order of
the source.  The buffer is returned as updated by the deltas; the code
never clears it. -/
def processChunk (buf : ToolCallsBuffer) (chunk : StreamChunk) :
    ToolCallsBuffer × List LLMResponse :=
  match chunk.choices with
  | [] => (buf, [])
  | choice :: _ =>
    let buf := applyChoiceDeltas buf choice
    (buf,
      textEvents choice ++ finishEvents buf choice chunk.usage ++
      fingerprintEvents chunk.system_fingerprint ++ usageEvents chunk.usage)

/-- The whole frame loop, threading the buffer. -/
def processChunks (buf : ToolCallsBuffer) :
    List StreamChunk → ToolCallsBuffer × List LLMResponse
  | [] => (buf, [])
  | c :: cs =>
    let step := processChunk buf c
    let rest := processChunks step.1 cs
    (rest.1, step.2 ++ rest.2)

/-- OpenAIProvider.stream as a function of the raw frames the upstream
delivered and an optional transport failure: the frames fully consumed
before the failure are processed by the loop from an empty buffer, and a
failure raised while awaiting the next frame is caught by the single
except clause, which yields one error event and ends the generator. -/
def stream (chunks : List StreamChunk) (failure : Option String) :
    List LLMResponse :=
  (processChunks [] chunks).2 ++
    (match failure with
     | some msg => [.error msg]
     | none => [])

/-! ## Observation helpers for the claims -/

/-- All finalized tool calls carried by tool_call events, in emission
order. -/
def emittedToolCalls : List LLMResponse → List ToolCallOut
  | [] => []
  | .tool_call tcs :: rest => tcs ++ emittedToolCalls rest
  | _ :: rest => emittedToolCalls rest

/-- True on tool_call events. -/
def isToolCallEvent : LLMResponse → Bool
  | .tool_call _ => true
  | _ => false

/-- True on done events. -/
def isDoneEvent : LLMResponse → Bool
  | .done _ _ => true
  | _ => false

/-- True on error events. -/
def isErrorEvent : LLMResponse → Bool
  | .error _ => true
  | _ => false

/-- True when a frame carries a truthy finish reason the loop would act
on (a frame with an empty choices array is skipped and carries none). -/
def chunkCarriesFinish (c : StreamChunk) : Bool :=
  match c.choices with
  | [] => false
  | choice :: _ => pyTruthy choice.finish_reason

/-! ## Wire encoder

Model of the stream_response generator of the chat_completions endpoint
(clawdbot/api/openai_compat.py, lines 258 to 394).  The chunks carry the
completion id, creation time and model name verbatim, so those are
parameters.  The turn events consumed from the runtime are modelled as a
closed sum over the event types the generator inspects. -/

/-- Token usage as rendered on the wire (ChatCompletionUsage). -/
structure ChatCompletionUsage where
  prompt_tokens : Int
  completion_tokens : Int
  total_tokens : Int

/-- Delta of a streamed wire chunk (ChatCompletionChunkDelta). -/
structure ChatCompletionChunkDelta where
  role : Option String
  content : Option String
  tool_calls : Option (List Json)

/-- Choice of a streamed wire chunk (ChatCompletionChunkChoice). -/
structure ChatCompletionChunkChoice where
  index : Nat
  delta : ChatCompletionChunkDelta
  finish_reason : Option String

/-- Streamed wire chunk (ChatCompletionChunk); id, created and model are
copied from the request handling scope. -/
structure ChatCompletionChunk where
  id : String
  created : Int
  model : String
  choices : List ChatCompletionChunkChoice
  usage : Option ChatCompletionUsage
  system_fingerprint : Option String

/-- One line written to the SSE transport: a data line carrying a chunk,
the literal DONE sentinel, or the error line produced by the except
clause of the generator. -/
inductive SSELine where
  | data : ChatCompletionChunk → SSELine
  | doneSentinel : SSELine
  | errorLine : String → SSELine

/-- Canonical turn events as inspected by stream_response: assistant
text deltas (the text key may be absent), metadata (the fingerprint key
may be absent, which stores None), usage, tool_use, tool_result, and
any other event type, which the if-elif chain ignores. -/
inductive TurnEvent where
  | assistant : Option String → TurnEvent
  | metadata : Option String → TurnEvent
  | usage : ChatCompletionUsage → TurnEvent
  | tool_use : Option String → Json → TurnEvent
  | tool_result : Option String → Option String → Option String → TurnEvent
  | other : TurnEvent

/-- True on tool_use events. -/
def isToolUseEvent : TurnEvent → Bool
  | .tool_use _ _ => true
  | _ => false

/-- The initial chunk, lines 263 to 272: role assistant, no content, no
tool calls, no finish reason, no usage, no fingerprint. -/
def initialChunk (cid : String) (created : Int) (model : String) :
    ChatCompletionChunk :=
  ⟨cid, created, model, [⟨0, ⟨some "assistant", none, none⟩, none⟩], none, none⟩

/-- A content chunk, lines 289 to 300, carrying the currently stored
fingerprint. -/
def contentChunk (cid : String) (created : Int) (model : String)
    (fp : Option String) (text : String) : ChatCompletionChunk :=
  ⟨cid, created, model, [⟨0, ⟨none, some text, none⟩, none⟩], none, fp⟩

/-- Optional string to JSON, as pydantic serialises a possibly absent
value. -/
def optStrJson : Option String → Json
  | some s => .str s
  | none => .null

/-- A tool-result chunk, lines 342 to 364. -/
def toolResultChunk (cid : String) (created : Int) (model : String)
    (fp : Option String) (callId tool result : Option String) :
    ChatCompletionChunk :=
  ⟨cid, created, model,
    [⟨0,
      ⟨none, none,
        some [.obj [("index", .num 0), ("id", optStrJson callId),
          ("type", .str "function"),
          ("function", .obj [("name", optStrJson tool),
            ("output", optStrJson result)])]]⟩,
      none⟩],
    none, fp⟩

/-- The final chunk, lines 370 to 381: empty delta, finish reason stop,
the tracked usage (possibly None) and fingerprint attached. -/
def finalChunk (cid : String) (created : Int) (model : String)
    (usage : Option ChatCompletionUsage) (fp : Option String) :
    ChatCompletionChunk :=
  ⟨cid, created, model, [⟨0, ⟨none, none, none⟩, some "stop"⟩], usage, fp⟩

/-- The message of the NameError raised by the tool_use branch: the
module never imports json, so line 322 raises at the first tool_use
event, and the except clause turns the exception text into an error
line. -/
def nameErrorMessage : String := "name \x27json\x27 is not defined"

/-- The event loop of stream_response, threading the tracked usage and
fingerprint.  Returns the emitted data lines and, when the loop runs to
completion, the final tracked usage and fingerprint; a tool_use event
raises NameError (the json module is not imported in this file), which
aborts the generator through its except clause with one error line. -/
def encodeEvents (cid : String) (created : Int) (model : String)
    (totalUsage : Option ChatCompletionUsage) (fp : Option String) :
    List TurnEvent →
    List SSELine × Option (Option ChatCompletionUsage × Option String)
  | [] => ([], some (totalUsage, fp))
  | e :: es =>
    match e with
    | .assistant (some text) =>
      let rest := encodeEvents cid created model totalUsage fp es
      (.data (contentChunk cid created model fp text) :: rest.1, rest.2)
    | .assistant none => encodeEvents cid created model totalUsage fp es
    | .metadata f => encodeEvents cid created model totalUsage f es
    | .usage u => encodeEvents cid created model (some u) fp es
    | .tool_use _ _ => ([.errorLine nameErrorMessage], none)
    | .tool_result callId tool result =>
      let rest := encodeEvents cid created model totalUsage fp es
      (.data (toolResultChunk cid created model fp callId tool result) ::
        rest.1, rest.2)
    | .other => encodeEvents cid created model totalUsage fp es

/-- stream_response as a function of the turn events: the initial role
chunk, the per-event chunks, then on normal completion the final chunk
with the tracked usage and fingerprint followed by the DONE sentinel;
an aborted loop ends with its error line instead. -/
def stream_response (cid : String) (created : Int) (model : String)
    (events : List TurnEvent) : List SSELine :=
  let first := SSELine.data (initialChunk cid created model)
  match encodeEvents cid created model none none events with
  | (lines, some (totalUsage, fp)) =>
    first :: lines ++
      [.data (finalChunk cid created model totalUsage fp), .doneSentinel]
  | (lines, none) => first :: lines

/-- One step of the usage tracking of the loop: a usage event
overwrites the tracked value. -/
def usageStep (acc : Option ChatCompletionUsage) (e : TurnEvent) :
    Option ChatCompletionUsage :=
  match e with
  | .usage u => some u
  | _ => acc

/-- One step of the fingerprint tracking: every metadata event
overwrites the tracked value with its (possibly absent) field. -/
def fpStep (acc : Option String) (e : TurnEvent) : Option String :=
  match e with
  | .metadata f => f
  | _ => acc

/-- The usage tracked by the loop over a whole event list: the last
usage event wins, none when there is none. -/
def lastUsage (events : List TurnEvent) : Option ChatCompletionUsage :=
  events.foldl usageStep none

/-- The fingerprint tracked by the loop. -/
def lastFingerprint (events : List TurnEvent) : Option String :=
  events.foldl fpStep none

/-! ## Skill matching

SkillProvider.find_skills (clawdbot/agents/tools/skill_loader.py, lines
61 to 72).  The skills dict values are modelled as a list in insertion
order. -/

/-- One loaded skill descriptor. -/
structure Skill where
  name : String
  description : String
  tags : List String
  instructions : String

/-- Python str.lower restricted to the ASCII range covered by
Char.toLower (queries and skill fields in the claims are ASCII). -/
def pyLower (s : String) : String :=
  String.mk (s.toList.map Char.toLower)

/-- Occurrence of one character list inside another as a contiguous
segment. -/
def infixCheck (needle : List Char) : List Char → Bool
  | [] => needle.isEmpty
  | c :: rest => List.isPrefixOf needle (c :: rest) || infixCheck needle rest

/-- The Python containment test a in b on strings. -/
def strIn (needle hay : String) : Bool :=
  infixCheck needle.toList hay.toList

/-- find_skills: a skill is kept when its lowered name, its lowered
description, or one of its lowered tags occurs as a substring of the
lowered query; matches are accumulated in catalog order. -/
def find_skills (skills : List Skill) (query : String) : List Skill :=
  let query_lower := pyLower query
  skills.foldl
    (fun matched skill =>
      let items := [pyLower skill.name, pyLower skill.description] ++
        skill.tags.map pyLower
      if items.any (fun item => strIn item query_lower) then
        matched ++ [skill]
      else matched) []

/-- The matching relation of the claim: the skill is related to the
query by a case-insensitive substring match over its name, its
description and its tags (the code tests each lowered item for
occurrence inside the lowered query). -/
def skillMatches (query : String) (s : Skill) : Bool :=
  strIn (pyLower s.name) (pyLower query) ||
  strIn (pyLower s.description) (pyLower query) ||
  s.tags.any (fun t => strIn (pyLower t) (pyLower query))

/-! ## Request preparation of the chat_completions endpoint

Lines 209 to 239 of openai_compat.py.  The session store itself
(clawdbot/agents/session.py) is not part of src; its operations are
modelled from the spec. -/

/-- One request message (the fields the preparation path reads). -/
structure ChatMessage where
  role : String
  content : Option String

/-- One stored session message. -/
structure SessionMessage where
  role : String
  content : Option String
  deriving DecidableEq

/-- Modelled from the spec: the session store keyed by an opaque session
identifier provides clear, add_system_message, add_user_message and
add_assistant_message (section 6 of the spec; session.py is missing from
src).  A session is its stored message list; clear empties it and each
add appends one message of the corresponding role. -/
abbrev Session := List SessionMessage

/-- Modelled from the spec: clear drops the stored history. -/
def Session.clear (_s : Session) : Session := []

/-- Modelled from the spec: append one system message. -/
def Session.add_system_message (s : Session) (c : Option String) : Session :=
  s ++ [⟨"system", c⟩]

/-- Modelled from the spec: append one user message. -/
def Session.add_user_message (s : Session) (c : Option String) : Session :=
  s ++ [⟨"user", c⟩]

/-- Modelled from the spec: append one assistant message. -/
def Session.add_assistant_message (s : Session) (c : Option String) : Session :=
  s ++ [⟨"assistant", c⟩]

/-- Lines 221 to 225: the latest user message with truthy content, used
as the skill-matching query; the empty string when there is none. -/
def latestUserQuery (messages : List ChatMessage) : String :=
  match messages.reverse.find?
      (fun m => m.role == "user" && pyTruthy m.content) with
  | some m => m.content.getD ""
  | none => ""

/-- Lines 209 to 239: the session for the request is cleared, a fully
assembled system prompt specialized to the latest user query is added
when and only when the request carries no system message, and then each
request message is added by role; a message whose role is not system,
user or assistant falls through the if-elif chain and is dropped.  The
prompt assembly (PromptManager.get_full_system_prompt) reads prompt
files from disk, so it enters the model as the function parameter
get_full_system_prompt. -/
def prepareSessionMessages (stored : Session)
    (get_full_system_prompt : String → String)
    (messages : List ChatMessage) : Session :=
  let session := Session.clear stored
  let has_system_msg := messages.any (fun m => m.role == "system")
  let session :=
    if has_system_msg then session
    else Session.add_system_message session
      (some (get_full_system_prompt (latestUserQuery messages)))
  messages.foldl
    (fun s m =>
      if m.role = "system" then Session.add_system_message s m.content
      else if m.role = "user" then Session.add_user_message s m.content
      else if m.role = "assistant" then Session.add_assistant_message s m.content
      else s) session

/-- The message a kept request message contributes to the session. -/
def keptMessage (m : ChatMessage) : Option SessionMessage :=
  if m.role = "system" ∨ m.role = "user" ∨ m.role = "assistant" then
    some ⟨m.role, m.content⟩
  else none

/-! ## Demo frames used by concrete statements -/

/-- A frame carrying exactly one arguments fragment for tool-call index
zero, with no id and no name. -/
def argFrame (s : String) : StreamChunk :=
  ⟨[⟨⟨none, some [⟨0, none, some ⟨none, some s⟩⟩]⟩, none⟩], none, none⟩

/-- A frame carrying only a finish reason. -/
def finishFrame (r : String) : StreamChunk :=
  ⟨[⟨⟨none, none⟩, some r⟩], none, none⟩

/-- Concatenation of a list of fragments, the reference value of the
chunking-invariance claim. -/
def concatFragments (l : List String) : String :=
  l.foldr (fun a b => a ++ b) ""

/-! ## General lemmas about the frame loop -/

lemma processChunks_append (l1 l2 : List StreamChunk) (buf : ToolCallsBuffer) :
    processChunks buf (l1 ++ l2)
      = ((processChunks (processChunks buf l1).1 l2).1,
         (processChunks buf l1).2 ++ (processChunks (processChunks buf l1).1 l2).2) := by
  induction l1 generalizing buf with
  | nil => simp [processChunks]
  | cons c cs ih => simp [processChunks, ih, List.append_assoc]

lemma emittedToolCalls_append (a b : List LLMResponse) :
    emittedToolCalls (a ++ b) = emittedToolCalls a ++ emittedToolCalls b := by
  induction a with
  | nil => rfl
  | cons e es ih =>
    cases e <;> simp [emittedToolCalls, ih, List.append_assoc]

/-- One arguments-only delta for index zero, applied to a singleton
buffer holding index zero, appends the fragment. -/
lemma applyToolCallDelta_arg (i n a s : String) :
    applyToolCallDelta [(0, ⟨i, n, a⟩)] ⟨0, none, some ⟨none, some s⟩⟩
      = [(0, ⟨i, n, a ++ s⟩)] := by
  by_cases hs : s = ""
  · subst hs
    simp [applyToolCallDelta, initBuffer, applyNameDelta, applyArgsDelta,
      bufFind, bufMod, pyTruthy, String.append_empty]
  · simp [applyToolCallDelta, initBuffer, applyNameDelta, applyArgsDelta,
      bufFind, bufMod, pyTruthy, hs]

/-- An argFrame applied to a singleton buffer emits nothing and appends
its fragment. -/
lemma processChunk_argFrame (i n a s : String) :
    processChunk [(0, ⟨i, n, a⟩)] (argFrame s) = ([(0, ⟨i, n, a ++ s⟩)], []) := by
  simp [processChunk, argFrame, applyChoiceDeltas, applyToolCallDelta_arg,
    pyTruthy, textEvents, finishEvents, fingerprintEvents, usageEvents]

/-- A first arguments-only delta for index zero creates the accumulator
with the synthesized id and the fragment. -/
lemma applyToolCallDelta_fresh_arg (s : String) :
    applyToolCallDelta [] ⟨0, none, some ⟨none, some s⟩⟩
      = [(0, ⟨"call_0", "", s⟩)] := by
  have hid : ("call_" ++ toString (0 : Nat)) = "call_0" := by decide
  by_cases hs : s = ""
  · subst hs
    rfl
  · unfold applyToolCallDelta applyArgsDelta applyNameDelta initBuffer
    simp [bufFind, List.find?, pyTruthy, pyOrStr, bufMod, hid, hs,
      String.empty_append]

/-- An argFrame applied to the empty buffer emits nothing and creates
the accumulator for index zero with the synthesized id. -/
lemma processChunk_argFrame_empty (s : String) :
    processChunk [] (argFrame s) = ([(0, ⟨"call_0", "", s⟩)], []) := by
  simp [processChunk, argFrame, applyChoiceDeltas, applyToolCallDelta_fresh_arg,
    pyTruthy, textEvents, finishEvents, fingerprintEvents, usageEvents]

/-- A run of argFrames from a singleton buffer appends the concatenation
of the fragments and emits nothing. -/
lemma processChunks_argFrames (frags : List String) :
    ∀ i n a : String,
      processChunks [(0, ⟨i, n, a⟩)] (frags.map argFrame)
        = ([(0, ⟨i, n, a ++ concatFragments frags⟩)], []) := by
  induction frags with
  | nil =>
    intro i n a
    simp [processChunks, concatFragments, String.append_empty]
  | cons s rest ih =>
    intro i n a
    have hcons : concatFragments (s :: rest) = s ++ concatFragments rest := rfl
    simp [processChunks, processChunk_argFrame, ih, hcons, String.append_assoc]

/-- A finish frame flushes the buffer (when non-empty) and yields done,
leaving the buffer untouched. -/
lemma processChunk_finishFrame (buf : ToolCallsBuffer) (r : String)
    (hr : r ≠ "") :
    processChunk buf (finishFrame r)
      = (buf,
         (if buf.isEmpty then []
          else [.tool_call (buf.map (fun p => flushEntry p.2))]) ++
         [.done r none]) := by
  simp [processChunk, finishFrame, applyChoiceDeltas, pyTruthy, hr,
    textEvents, finishEvents, fingerprintEvents, usageEvents]

/-! ## Claim C1 (corrected)

The chunking-invariance claim: splitting the argument string of one tool
call across frames at arbitrary byte boundaries yields exactly one
flushed tool call whose arguments depend only on the concatenation of
the fragments.  As stated, the claim also asserts that the emitted
arguments EQUAL the concatenation; the code instead re-serialises the
parsed concatenation (json.dumps of json.loads), which normalises
whitespace, so equality with the concatenation fails, e.g. when the
fragments concatenate to a JSON object written without spaces. -/

/-- Claim C1, counterexample: the two fragments reassemble to an object
written without a space after the colon, and the single emitted tool
call carries the re-serialised text, which differs from the
concatenation of the fragments. -/
theorem claim1_counterexample :
    emittedToolCalls
        (stream [argFrame "\x7b\"a\"", argFrame ":1\x7d",
          finishFrame "tool_calls"] none)
      = [⟨"call_0", "", .text "\x7b\"a\": 1\x7d"⟩] ∧
    "\x7b\"a\": 1\x7d" ≠ "\x7b\"a\"" ++ ":1\x7d" :=
  ⟨rfl, by decide⟩

/-- Claim C1, amended: for every non-empty list of fragments carrying
the arguments of the single tool call at index zero, followed by a
finish frame, the normaliser emits exactly one tool_call event holding
exactly one finalized call, whose arguments are flushArguments of the
concatenation of the fragments (the re-serialisation of the parsed
concatenation, the empty object on parse failure); consequently any two
fragmentations with the same concatenation produce identical output
(chunking invariance). -/
theorem claim1_chunking_invariance (frags frags2 : List String)
    (h : frags ≠ []) (h2 : frags2 ≠ [])
    (hc : concatFragments frags2 = concatFragments frags) :
    stream (frags.map argFrame ++ [finishFrame "tool_calls"]) none
      = [.tool_call [⟨"call_0", "", flushArguments (concatFragments frags)⟩],
         .done "tool_calls" none] ∧
    stream (frags2.map argFrame ++ [finishFrame "tool_calls"]) none
      = stream (frags.map argFrame ++ [finishFrame "tool_calls"]) none := by
  have key : ∀ fr : List String, fr ≠ [] →
      stream (fr.map argFrame ++ [finishFrame "tool_calls"]) none
        = [.tool_call [⟨"call_0", "", flushArguments (concatFragments fr)⟩],
           .done "tool_calls" none] := by
    intro fr hfr
    match fr with
    | [] => exact absurd rfl hfr
    | s :: rest =>
      have hstream : ∀ L : List StreamChunk,
          stream L none = (processChunks [] L).2 := by
        intro L
        simp [stream]
      have hA : processChunks [] ((s :: rest).map argFrame)
          = ([(0, ⟨"call_0", "", concatFragments (s :: rest)⟩)], []) := by
        have hcons : concatFragments (s :: rest) = s ++ concatFragments rest := rfl
        simp [processChunks, processChunk_argFrame_empty,
          processChunks_argFrames rest, hcons]
      have hfin := processChunk_finishFrame
        [(0, ⟨"call_0", "", concatFragments (s :: rest)⟩)] "tool_calls"
        (by decide)
      rw [hstream, processChunks_append, hA]
      simp [processChunks, hfin, flushEntry]
  refine ⟨key frags h, ?_⟩
  rw [key frags h, key frags2 h2, hc]

/-- Claim C1, witness: the counterexample fragmentation and the
unfragmented string have the same concatenation and produce the same
single flushed call. -/
theorem claim1_witness :
    stream (["\x7b\"a\"", ":1\x7d"].map argFrame ++ [finishFrame "tool_calls"])
        none
      = [.tool_call
          [⟨"call_0", "",
            flushArguments (concatFragments ["\x7b\"a\"", ":1\x7d"])⟩],
         .done "tool_calls" none] ∧
    stream (["\x7b\"a\":1\x7d"].map argFrame ++ [finishFrame "tool_calls"]) none
      = stream (["\x7b\"a\"", ":1\x7d"].map argFrame ++
          [finishFrame "tool_calls"]) none :=
  claim1_chunking_invariance ["\x7b\"a\"", ":1\x7d"] ["\x7b\"a\":1\x7d"]
    (by decide) (by decide) rfl

/-! ## Claim C2 (code bug)

The claim says side-channel usage and fingerprint data is emitted as
Usage and Metadata events for every frame carrying it, including frames
whose choice array is empty, and that such events from the frame that
carries the finish reason are emitted before the Done event.  The loop
begins with: if not chunk.choices, continue — so a frame with an empty
choices array is dropped whole, although the comment on line 178 says
the code intends to capture fingerprint and usage from chunks that might
not have choices, and OpenAI delivers the stream_options usage payload
(requested on line 94) exactly on such a final choiceless frame.
Moreover, for a frame that does carry choices, the done event (line 171)
is yielded before the metadata and usage events (lines 179 to 189).  The
code therefore contradicts its own comments; the claim describes the
intent. -/

/-- Claim C2: evaluation of the code at the failing inputs.  A frame
with an empty choice array carrying usage and fingerprint produces no
events at all, and a finish frame carrying usage and fingerprint emits
done first, metadata and usage after it. -/
theorem claim2_code_behavior :
    stream [⟨[], some ⟨3, 5, 8⟩, some "fp_x"⟩] none = [] ∧
    stream [⟨[⟨⟨none, none⟩, some "stop"⟩], some ⟨3, 5, 8⟩, some "fp_x"⟩] none
      = [.done "stop" (some ⟨3, 5, 8⟩), .metadata "fp_x", .usage ⟨3, 5, 8⟩] :=
  ⟨rfl, rfl⟩

/-! ## Claim C3 (corrected)

On a finish frame the loop emits one finalized call per buffer entry and
exactly one done event.  But the entries are iterated in the insertion
order of the Python dict (first-observed order), not in ascending index
order, and the buffer is not cleared afterwards. -/

/-- Claim C3, counterexample: index 1 is observed before index 0, the
flush emits the entry of index 1 first (insertion order, not ascending
index order), and the buffer still holds both entries after the finish
frame instead of being cleared. -/
theorem claim3_counterexample :
    stream
        [⟨[⟨⟨none, some [⟨1, some "idB", some ⟨some "beta", some "\x7b\x7d"⟩⟩,
            ⟨0, some "idA", some ⟨some "alpha", some "\x7b\x7d"⟩⟩]⟩, none⟩],
          none, none⟩,
         finishFrame "tool_calls"] none
      = [.tool_call [⟨"idB", "beta", .text "\x7b\x7d"⟩,
          ⟨"idA", "alpha", .text "\x7b\x7d"⟩],
         .done "tool_calls" none] ∧
    (processChunks []
        [⟨[⟨⟨none, some [⟨1, some "idB", some ⟨some "beta", some "\x7b\x7d"⟩⟩,
            ⟨0, some "idA", some ⟨some "alpha", some "\x7b\x7d"⟩⟩]⟩, none⟩],
          none, none⟩,
         finishFrame "tool_calls"]).1.map Prod.fst
      = [1, 0] :=
  ⟨rfl, rfl⟩

lemma emittedToolCalls_textEvents (choice : StreamChoice) :
    emittedToolCalls (textEvents choice) = [] := by
  cases h : choice.delta.content <;> simp [textEvents, h, emittedToolCalls]

lemma emittedToolCalls_fingerprintEvents (fp : Option String) :
    emittedToolCalls (fingerprintEvents fp) = [] := by
  cases fp with
  | none => rfl
  | some f =>
    by_cases hf : f = "" <;> simp [fingerprintEvents, hf, emittedToolCalls]

lemma emittedToolCalls_usageEvents (u : Option UsageData) :
    emittedToolCalls (usageEvents u) = [] := by
  cases u <;> rfl

lemma emittedToolCalls_finishEvents (buf : ToolCallsBuffer)
    (choice : StreamChoice) (u : Option UsageData)
    (h : pyTruthy choice.finish_reason = true) :
    emittedToolCalls (finishEvents buf choice u)
      = buf.map (fun p => flushEntry p.2) := by
  by_cases hb : buf.isEmpty
  · simp [finishEvents, h, hb, List.isEmpty_iff.mp hb, emittedToolCalls]
  · simp [finishEvents, h, hb, emittedToolCalls_append, emittedToolCalls]

lemma filterDone_textEvents (choice : StreamChoice) :
    List.filter isDoneEvent (textEvents choice) = [] := by
  cases h : choice.delta.content <;> simp [textEvents, h, isDoneEvent]

lemma filterDone_fingerprintEvents (fp : Option String) :
    List.filter isDoneEvent (fingerprintEvents fp) = [] := by
  cases fp with
  | none => rfl
  | some f =>
    by_cases hf : f = "" <;> simp [fingerprintEvents, hf, isDoneEvent]

lemma filterDone_usageEvents (u : Option UsageData) :
    List.filter isDoneEvent (usageEvents u) = [] := by
  cases u <;> simp [usageEvents, isDoneEvent]

lemma filterDone_finishEvents (buf : ToolCallsBuffer) (choice : StreamChoice)
    (u : Option UsageData) (h : pyTruthy choice.finish_reason = true) :
    List.filter isDoneEvent (finishEvents buf choice u)
      = [.done (choice.finish_reason.getD "") u] := by
  by_cases hb : buf.isEmpty <;>
    simp [finishEvents, h, hb, isDoneEvent, List.filter_append]

lemma isToolCallEvent_textEvents (choice : StreamChoice) :
    ∀ e ∈ textEvents choice, isToolCallEvent e = false := by
  cases h : choice.delta.content <;> simp [textEvents, h, isToolCallEvent]

lemma isToolCallEvent_fingerprintEvents (fp : Option String) :
    ∀ e ∈ fingerprintEvents fp, isToolCallEvent e = false := by
  cases fp with
  | none => simp [fingerprintEvents]
  | some f =>
    by_cases hf : f = "" <;> simp [fingerprintEvents, hf, isToolCallEvent]

lemma isToolCallEvent_usageEvents (u : Option UsageData) :
    ∀ e ∈ usageEvents u, isToolCallEvent e = false := by
  cases u <;> simp [usageEvents, isToolCallEvent]

lemma isDoneEvent_textEvents (choice : StreamChoice) :
    ∀ e ∈ textEvents choice, isDoneEvent e = false := by
  cases h : choice.delta.content <;> simp [textEvents, h, isDoneEvent]

lemma isDoneEvent_fingerprintEvents (fp : Option String) :
    ∀ e ∈ fingerprintEvents fp, isDoneEvent e = false := by
  cases fp with
  | none => simp [fingerprintEvents]
  | some f =>
    by_cases hf : f = "" <;> simp [fingerprintEvents, hf, isDoneEvent]

lemma isDoneEvent_usageEvents (u : Option UsageData) :
    ∀ e ∈ usageEvents u, isDoneEvent e = false := by
  cases u <;> simp [usageEvents, isDoneEvent]

/-- Claim C3, amended: on every frame whose first choice carries a
truthy finish reason, after applying the tool-call deltas of that frame
the loop emits one finalized call per buffer entry, in buffer (insertion)
order, followed by exactly one done event carrying the finish reason and
the usage attribute of the frame; the buffer is returned as is, not
cleared.  The ordering is pinned by the sequence decomposition: the
output is pre ++ done :: post where pre carries exactly the flushed
calls (in buffer order) and post contains neither a tool_call nor a done
event, so every flushed call precedes the unique done. -/
theorem claim3_flush_order (buf : ToolCallsBuffer) (choice : StreamChoice)
    (rest : List StreamChoice) (u : Option UsageData) (fp : Option String)
    (h : pyTruthy choice.finish_reason = true) :
    (processChunk buf ⟨choice :: rest, u, fp⟩).1 = applyChoiceDeltas buf choice ∧
    emittedToolCalls (processChunk buf ⟨choice :: rest, u, fp⟩).2
      = (applyChoiceDeltas buf choice).map (fun p => flushEntry p.2) ∧
    List.filter isDoneEvent (processChunk buf ⟨choice :: rest, u, fp⟩).2
      = [.done (choice.finish_reason.getD "") u] ∧
    ∃ pre post,
      (processChunk buf ⟨choice :: rest, u, fp⟩).2
        = pre ++ .done (choice.finish_reason.getD "") u :: post ∧
      emittedToolCalls pre
        = (applyChoiceDeltas buf choice).map (fun p => flushEntry p.2) ∧
      ∀ e ∈ post, isToolCallEvent e = false ∧ isDoneEvent e = false := by
  refine ⟨by simp [processChunk], ?_, ?_, ?_⟩
  · simp [processChunk, emittedToolCalls_append, emittedToolCalls_textEvents,
      emittedToolCalls_fingerprintEvents, emittedToolCalls_usageEvents,
      emittedToolCalls_finishEvents _ _ _ h]
  · simp [processChunk, List.filter_append, filterDone_textEvents,
      filterDone_fingerprintEvents, filterDone_usageEvents,
      filterDone_finishEvents _ _ _ h]
  · refine ⟨textEvents choice ++
      (if (applyChoiceDeltas buf choice).isEmpty then []
       else [.tool_call ((applyChoiceDeltas buf choice).map
         (fun p => flushEntry p.2))]),
      fingerprintEvents fp ++ usageEvents u, ?_, ?_, ?_⟩
    · simp [processChunk, finishEvents, h, List.append_assoc]
    · by_cases hb : (applyChoiceDeltas buf choice).isEmpty
      · simp [hb, List.isEmpty_iff.mp hb, emittedToolCalls_append,
          emittedToolCalls_textEvents, emittedToolCalls]
      · simp [hb, emittedToolCalls_append, emittedToolCalls_textEvents,
          emittedToolCalls]
    · intro e he
      rcases List.mem_append.mp he with he | he
      · exact ⟨isToolCallEvent_fingerprintEvents fp e he,
          isDoneEvent_fingerprintEvents fp e he⟩
      · exact ⟨isToolCallEvent_usageEvents u e he,
          isDoneEvent_usageEvents u e he⟩

/-- Claim C3, witness: a finish frame with usage flushes a singleton
buffer into one call followed by one done event and keeps the entry. -/
theorem claim3_witness :
    (processChunk [(0, ⟨"idA", "alpha", ""⟩)]
        ⟨[⟨⟨none, none⟩, some "stop"⟩], some ⟨1, 2, 3⟩, none⟩).1
      = applyChoiceDeltas [(0, ⟨"idA", "alpha", ""⟩)] ⟨⟨none, none⟩, some "stop"⟩ ∧
    emittedToolCalls (processChunk [(0, ⟨"idA", "alpha", ""⟩)]
        ⟨[⟨⟨none, none⟩, some "stop"⟩], some ⟨1, 2, 3⟩, none⟩).2
      = (applyChoiceDeltas [(0, ⟨"idA", "alpha", ""⟩)]
          ⟨⟨none, none⟩, some "stop"⟩).map (fun p => flushEntry p.2) ∧
    List.filter isDoneEvent (processChunk [(0, ⟨"idA", "alpha", ""⟩)]
        ⟨[⟨⟨none, none⟩, some "stop"⟩], some ⟨1, 2, 3⟩, none⟩).2
      = [.done "stop" (some ⟨1, 2, 3⟩)] ∧
    ∃ pre post,
      (processChunk [(0, ⟨"idA", "alpha", ""⟩)]
          ⟨[⟨⟨none, none⟩, some "stop"⟩], some ⟨1, 2, 3⟩, none⟩).2
        = pre ++ .done "stop" (some ⟨1, 2, 3⟩) :: post ∧
      emittedToolCalls pre
        = (applyChoiceDeltas [(0, ⟨"idA", "alpha", ""⟩)]
            ⟨⟨none, none⟩, some "stop"⟩).map (fun p => flushEntry p.2) ∧
      ∀ e ∈ post, isToolCallEvent e = false ∧ isDoneEvent e = false :=
  claim3_flush_order [(0, ⟨"idA", "alpha", ""⟩)] ⟨⟨none, none⟩, some "stop"⟩
    [] (some ⟨1, 2, 3⟩) none (by decide)

/-! ## Claim C4 (corrected)

The first wire chunk always announces the assistant role with no content
and no finish reason.  The final chunk always carries the non-null
finish reason stop, but its usage field is exactly the last usage event
observed from the turn: when none was observed, the streaming encoder
attaches None instead of estimating one (the character-length estimate
exists only in the non-streaming branch, lines 421 to 429).  Moreover a
tool_use event aborts the generator through a NameError (the json module
is never imported by openai_compat.py), so such a stream ends with an
error line and has no final chunk at all. -/

lemma encodeEvents_run (cid : String) (created : Int) (model : String) :
    ∀ (events : List TurnEvent) (tu : Option ChatCompletionUsage)
      (fp : Option String),
      (∀ e ∈ events, isToolUseEvent e = false) →
      ∃ lines, encodeEvents cid created model tu fp events
        = (lines, some (events.foldl usageStep tu, events.foldl fpStep fp)) := by
  intro events
  induction events with
  | nil => exact fun tu fp _ => ⟨[], rfl⟩
  | cons e es ih =>
    intro tu fp h
    have hes : ∀ x ∈ es, isToolUseEvent x = false :=
      fun x hx => h x (List.mem_cons_of_mem e hx)
    cases e with
    | assistant t =>
      cases t with
      | none =>
        obtain ⟨lines, hl⟩ := ih tu fp hes
        exact ⟨lines, by simp [encodeEvents, hl, usageStep, fpStep]⟩
      | some text =>
        obtain ⟨lines, hl⟩ := ih tu fp hes
        exact ⟨.data (contentChunk cid created model fp text) :: lines,
          by simp [encodeEvents, hl, usageStep, fpStep]⟩
    | metadata f =>
      obtain ⟨lines, hl⟩ := ih tu f hes
      exact ⟨lines, by simp [encodeEvents, hl, usageStep, fpStep]⟩
    | usage u =>
      obtain ⟨lines, hl⟩ := ih (some u) fp hes
      exact ⟨lines, by simp [encodeEvents, hl, usageStep, fpStep]⟩
    | tool_use t i =>
      exact absurd (h (.tool_use t i) (List.mem_cons_self _ _))
        (by simp [isToolUseEvent])
    | tool_result a b c =>
      obtain ⟨lines, hl⟩ := ih tu fp hes
      exact ⟨.data (toolResultChunk cid created model fp a b c) :: lines,
        by simp [encodeEvents, hl, usageStep, fpStep]⟩
    | other =>
      obtain ⟨lines, hl⟩ := ih tu fp hes
      exact ⟨lines, by simp [encodeEvents, hl, usageStep, fpStep]⟩

/-- Claim C4, counterexample: with no usage event observed the final
chunk of the stream carries usage None rather than an estimate, and a
stream containing a tool_use event has no final chunk and no sentinel at
all, ending in an error line instead. -/
theorem claim4_counterexample :
    (finalChunk "c" 0 "m" none none).usage = none ∧
    stream_response "c" 0 "m" [.assistant (some "hi")]
      = [.data (initialChunk "c" 0 "m"),
         .data (contentChunk "c" 0 "m" none "hi"),
         .data (finalChunk "c" 0 "m" none none), .doneSentinel] ∧
    stream_response "c" 0 "m" [.tool_use (some "calc") (.obj [])]
      = [.data (initialChunk "c" 0 "m"), .errorLine nameErrorMessage] :=
  ⟨rfl, rfl, rfl⟩

/-- Claim C4, amended: for every streaming request the first wire chunk
is the role-announcement chunk (delta.role assistant, no content, no
finish reason); and when the turn produces no tool_use event the stream
ends with exactly one final chunk whose finish reason is the non-null
stop and whose usage is the last usage event observed, None when none
was observed (no estimation in the streaming path), followed by the
DONE sentinel. -/
theorem claim4_stream_shape (cid : String) (created : Int) (model : String)
    (events : List TurnEvent)
    (h : ∀ e ∈ events, isToolUseEvent e = false) :
    (stream_response cid created model events).head?
      = some (.data (initialChunk cid created model)) ∧
    ∃ body, stream_response cid created model events
      = .data (initialChunk cid created model) ::
          (body ++ [.data (finalChunk cid created model (lastUsage events)
            (lastFingerprint events)), .doneSentinel]) := by
  obtain ⟨lines, hl⟩ := encodeEvents_run cid created model events none none h
  refine ⟨?_, ⟨lines, ?_⟩⟩
  · simp [stream_response, hl]
  · simp [stream_response, hl, lastUsage, lastFingerprint]

/-- Claim C4, witness: a turn with one text delta and one usage event. -/
theorem claim4_witness :
    (stream_response "c" 0 "m" [.assistant (some "hi"), .usage ⟨1, 2, 3⟩]).head?
      = some (.data (initialChunk "c" 0 "m")) ∧
    ∃ body, stream_response "c" 0 "m" [.assistant (some "hi"), .usage ⟨1, 2, 3⟩]
      = .data (initialChunk "c" 0 "m") ::
          (body ++ [.data (finalChunk "c" 0 "m"
            (lastUsage [.assistant (some "hi"), .usage ⟨1, 2, 3⟩])
            (lastFingerprint [.assistant (some "hi"), .usage ⟨1, 2, 3⟩])),
            .doneSentinel]) :=
  claim4_stream_shape "c" 0 "m" [.assistant (some "hi"), .usage ⟨1, 2, 3⟩]
    (by decide)

/-! ## Claim C5 (confirmed)

As long as no frame carries a truthy finish reason, the loop emits no
tool_call event: deltas only mutate the accumulator. -/

lemma finishEvents_of_no_finish (buf : ToolCallsBuffer) (choice : StreamChoice)
    (u : Option UsageData) (h : pyTruthy choice.finish_reason = false) :
    finishEvents buf choice u = [] := by
  simp [finishEvents, h]

lemma processChunk_no_finish_no_toolcall (buf : ToolCallsBuffer)
    (c : StreamChunk) (h : chunkCarriesFinish c = false) :
    ∀ e ∈ (processChunk buf c).2, isToolCallEvent e = false := by
  obtain ⟨choices, u, fp⟩ := c
  cases choices with
  | nil => simp [processChunk]
  | cons choice rest =>
    have h' : pyTruthy choice.finish_reason = false := by
      simpa [chunkCarriesFinish] using h
    intro e he
    simp only [processChunk, List.mem_append] at he
    rcases he with ((he | he) | he) | he
    · exact isToolCallEvent_textEvents choice e he
    · rw [finishEvents_of_no_finish _ _ _ h'] at he
      exact absurd he (List.not_mem_nil e)
    · exact isToolCallEvent_fingerprintEvents fp e he
    · exact isToolCallEvent_usageEvents u e he

/-- Claim C5: over any prefix of frames none of which carries a truthy
finish reason, the normaliser emits no tool_call event; partial tool
calls stay inside the accumulator. -/
theorem claim5_no_premature_flush (chunks : List StreamChunk)
    (h : ∀ c ∈ chunks, chunkCarriesFinish c = false) :
    ∀ e ∈ stream chunks none, isToolCallEvent e = false := by
  have main : ∀ (l : List StreamChunk) (buf : ToolCallsBuffer),
      (∀ c ∈ l, chunkCarriesFinish c = false) →
      ∀ e ∈ (processChunks buf l).2, isToolCallEvent e = false := by
    intro l
    induction l with
    | nil => simp [processChunks]
    | cons c cs ih =>
      intro buf hall e he
      simp only [processChunks, List.mem_append] at he
      rcases he with he | he
      · exact processChunk_no_finish_no_toolcall buf c
          (hall c (List.mem_cons_self _ _)) e he
      · exact ih (processChunk buf c).1
          (fun x hx => hall x (List.mem_cons_of_mem c hx)) e he
  intro e he
  simp only [stream, List.append_nil] at he
  exact main chunks [] h e he

/-- Claim C5, witness: a content-only frame yields a text delta, which
is not a tool_call event. -/
theorem claim5_witness :
    isToolCallEvent (.text_delta "hello") = false :=
  claim5_no_premature_flush [⟨[⟨⟨some "hello", none⟩, none⟩], none, none⟩]
    (by decide) (.text_delta "hello") (List.Mem.head _)

/-! ## Claim C6 (corrected)

Flushing recovers from unparsable or empty accumulated arguments by
substituting the serialised empty object, and never raises (the model is
total and emits no error event: see claim7_error_terminal).  But when
the accumulated string parses to a non-object JSON value, the code
passes that raw value through as the arguments field, so the emitted
arguments are not always a JSON object. -/

/-- Claim C6, counterexample: arguments that reassemble to the JSON
array [1, 2] are passed through as the raw parsed array, not as a JSON
object text. -/
theorem claim6_counterexample :
    emittedToolCalls (stream [argFrame "[1, 2]", finishFrame "stop"] none)
      = [⟨"call_0", "", .raw (.arr [.num 1, .num 2])⟩] ∧
    (ArgumentsValue.raw (.arr [.num 1, .num 2])).isJsonText = false :=
  ⟨rfl, rfl⟩

/-- Claim C6, amended: when the accumulated arguments string fails to
parse, or is empty, the flushed arguments are the text of the empty
JSON object; and whenever the parse result is an object, the flushed
arguments are the serialisation of a JSON object.  (Only a successful
parse to a non-object value escapes this, as the counterexample
shows.) -/
theorem claim6_arguments (s : String) :
    (jsonLoads s = none → flushArguments s = .text "\x7b\x7d") ∧
    (s = "" → flushArguments s = .text "\x7b\x7d") ∧
    ((pyParseArgs s).isObj = true →
      ∃ o, flushArguments s = .text (jsonDumps (Json.obj o))) := by
  have hempty : jsonDumps (Json.obj []) = "\x7b\x7d" := rfl
  refine ⟨?_, ?_, ?_⟩
  · intro hn
    by_cases hs : s = ""
    · subst hs
      rfl
    · simp [flushArguments, pyParseArgs, hs, hn, hempty]
  · intro hs
    subst hs
    rfl
  · intro hobj
    cases hp : pyParseArgs s with
    | obj o => exact ⟨o, by simp [flushArguments, hp]⟩
    | null => rw [hp] at hobj; exact absurd hobj (by simp [Json.isObj])
    | bool b => rw [hp] at hobj; exact absurd hobj (by simp [Json.isObj])
    | num n => rw [hp] at hobj; exact absurd hobj (by simp [Json.isObj])
    | fnum l => rw [hp] at hobj; exact absurd hobj (by simp [Json.isObj])
    | str t => rw [hp] at hobj; exact absurd hobj (by simp [Json.isObj])
    | arr xs => rw [hp] at hobj; exact absurd hobj (by simp [Json.isObj])

/-- Claim C6, witness: the truncated object of the spec scenario parses
to nothing and flushes to the empty object text, and a well-formed
object flushes to an object serialisation. -/
theorem claim6_witness :
    jsonLoads "\x7b\"city\": \"SF\"" = none ∧
    flushArguments "\x7b\"city\": \"SF\"" = .text "\x7b\x7d" ∧
    (pyParseArgs "\x7b\"a\":1\x7d").isObj = true ∧
    ∃ o, flushArguments "\x7b\"a\":1\x7d" = .text (jsonDumps (Json.obj o)) :=
  ⟨rfl, (claim6_arguments "\x7b\"city\": \"SF\"").1 rfl, rfl,
    (claim6_arguments "\x7b\"a\":1\x7d").2.2 rfl⟩

/-! ## Claim C7 (confirmed)

A transport failure is caught by the single except clause around the
loop: every event formed from the frames consumed before the failure has
already been yielded, then exactly one error event follows, and nothing
after it — in particular no done event after the error. -/

lemma isErrorEvent_textEvents (choice : StreamChoice) :
    ∀ e ∈ textEvents choice, isErrorEvent e = false := by
  cases h : choice.delta.content <;> simp [textEvents, h, isErrorEvent]

lemma isErrorEvent_finishEvents (buf : ToolCallsBuffer) (choice : StreamChoice)
    (u : Option UsageData) :
    ∀ e ∈ finishEvents buf choice u, isErrorEvent e = false := by
  by_cases h : pyTruthy choice.finish_reason
  · by_cases hb : buf.isEmpty <;>
      simp [finishEvents, h, hb, isErrorEvent]
  · simp [finishEvents, h]

lemma isErrorEvent_fingerprintEvents (fp : Option String) :
    ∀ e ∈ fingerprintEvents fp, isErrorEvent e = false := by
  cases fp with
  | none => simp [fingerprintEvents]
  | some f =>
    by_cases hf : f = "" <;> simp [fingerprintEvents, hf, isErrorEvent]

lemma isErrorEvent_usageEvents (u : Option UsageData) :
    ∀ e ∈ usageEvents u, isErrorEvent e = false := by
  cases u <;> simp [usageEvents, isErrorEvent]

lemma processChunk_no_error (buf : ToolCallsBuffer) (c : StreamChunk) :
    ∀ e ∈ (processChunk buf c).2, isErrorEvent e = false := by
  obtain ⟨choices, u, fp⟩ := c
  cases choices with
  | nil => simp [processChunk]
  | cons choice rest =>
    intro e he
    simp only [processChunk, List.mem_append] at he
    rcases he with ((he | he) | he) | he
    · exact isErrorEvent_textEvents choice e he
    · exact isErrorEvent_finishEvents _ choice u e he
    · exact isErrorEvent_fingerprintEvents fp e he
    · exact isErrorEvent_usageEvents u e he

/-- Claim C7: a failed stream is exactly the normally produced events of
the frames consumed before the failure, followed by one error event in
final position; the normal events contain no error, so the error event
is unique and nothing (in particular no done) follows it. -/
theorem claim7_error_terminal (chunks : List StreamChunk) (msg : String) :
    stream chunks (some msg) = stream chunks none ++ [.error msg] ∧
    ∀ e ∈ stream chunks none, isErrorEvent e = false := by
  constructor
  · simp [stream]
  · have main : ∀ (l : List StreamChunk) (buf : ToolCallsBuffer),
        ∀ e ∈ (processChunks buf l).2, isErrorEvent e = false := by
      intro l
      induction l with
      | nil => simp [processChunks]
      | cons c cs ih =>
        intro buf e he
        simp only [processChunks, List.mem_append] at he
        rcases he with he | he
        · exact processChunk_no_error buf c e he
        · exact ih (processChunk buf c).1 e he
    intro e he
    simp only [stream, List.append_nil] at he
    exact main chunks [] e he

/-- Claim C7, witness: a drop after two text deltas yields exactly those
deltas followed by one error and no done. -/
theorem claim7_witness :
    stream [⟨[⟨⟨some "a", none⟩, none⟩], none, none⟩,
        ⟨[⟨⟨some "b", none⟩, none⟩], none, none⟩] (some "connection reset")
      = stream [⟨[⟨⟨some "a", none⟩, none⟩], none, none⟩,
          ⟨[⟨⟨some "b", none⟩, none⟩], none, none⟩] none ++
        [.error "connection reset"] :=
  (claim7_error_terminal [⟨[⟨⟨some "a", none⟩, none⟩], none, none⟩,
    ⟨[⟨⟨some "b", none⟩, none⟩], none, none⟩] "connection reset").1

/-! ## Claim C8 (corrected)

The call id of an accumulator is fixed at the moment the index is first
observed: it is the id of that first delta when truthy, the synthesized
call_N otherwise, and it never changes afterwards.  The claim further
says the synthesized id is used only when no frame of the whole response
supplies an id — but the code ignores ids supplied on later frames, so
an id arriving after an id-less first delta is lost. -/

lemma bufFind_append_of_found (buf : ToolCallsBuffer) (idx : Nat)
    (e : BufferEntry) (p : Nat × BufferEntry)
    (h : bufFind buf idx = some e) :
    bufFind (buf ++ [p]) idx = some e := by
  induction buf with
  | nil => simp [bufFind, List.find?] at h
  | cons q qs ih =>
    by_cases hq : q.1 == idx
    · simp [bufFind, List.find?, hq] at h ⊢
      exact h
    · simp only [bufFind, List.find?, hq, List.cons_append] at h ⊢
      exact ih h

lemma bufFind_append_self (buf : ToolCallsBuffer) (idx : Nat)
    (x : BufferEntry) (h : bufFind buf idx = none) :
    bufFind (buf ++ [(idx, x)]) idx = some x := by
  induction buf with
  | nil => simp [bufFind, List.find?]
  | cons q qs ih =>
    by_cases hq : q.1 == idx
    · simp [bufFind, List.find?, hq] at h
    · simp only [bufFind, List.find?, hq, List.cons_append] at h ⊢
      exact ih h

lemma bufFind_bufMod (buf : ToolCallsBuffer) (i idx : Nat)
    (f : BufferEntry → BufferEntry) (e : BufferEntry)
    (h : bufFind buf idx = some e) :
    bufFind (bufMod buf i f) idx = some (if idx = i then f e else e) := by
  induction buf with
  | nil => simp [bufFind, List.find?] at h
  | cons q qs ih =>
    by_cases hq : q.1 = idx
    · have hbeq : (q.1 == idx) = true := by simp [hq]
      have he : q.2 = e := by
        simpa [bufFind, List.find?, hbeq] using h
      subst hq
      by_cases hqi : q.1 = i <;>
        simp [bufFind, bufMod, List.find?, hqi, he]
    · have hbeq : (q.1 == idx) = false := by simp [hq]
      have h2 : bufFind qs idx = some e := by
        simpa [bufFind, List.find?, hbeq] using h
      have ih2 := ih h2
      by_cases hqi : q.1 = i
      · have hbeq2 : (i == idx) = false := by
          rw [← hqi]
          exact hbeq
        simpa [bufFind, bufMod, List.find?, hbeq, hbeq2, hqi] using ih2
      · simpa [bufFind, bufMod, List.find?, hbeq, hqi] using ih2

lemma bufFind_bufMod_id (buf : ToolCallsBuffer) (i : Nat)
    (f : BufferEntry → BufferEntry) (hf : ∀ x, (f x).id = x.id) (idx : Nat)
    (e : BufferEntry) (h : bufFind buf idx = some e) :
    ∃ e2, bufFind (bufMod buf i f) idx = some e2 ∧ e2.id = e.id := by
  refine ⟨_, bufFind_bufMod buf i idx f e h, ?_⟩
  by_cases hi : idx = i <;> simp [hi, hf]

lemma initBuffer_preserves (buf : ToolCallsBuffer) (tc : ToolCallDelta)
    (idx : Nat) (e : BufferEntry) (h : bufFind buf idx = some e) :
    bufFind (initBuffer buf tc) idx = some e := by
  unfold initBuffer
  cases hinit : bufFind buf tc.index with
  | some _ => exact h
  | none => exact bufFind_append_of_found buf idx e _ h

lemma initBuffer_fresh (buf : ToolCallsBuffer) (tc : ToolCallDelta)
    (h : bufFind buf tc.index = none) :
    bufFind (initBuffer buf tc) tc.index
      = some ⟨pyOrStr tc.id ("call_" ++ toString tc.index), "", ""⟩ := by
  unfold initBuffer
  simp only [h]
  exact bufFind_append_self buf tc.index _ h

lemma applyNameDelta_preserves_id (buf : ToolCallsBuffer) (tc : ToolCallDelta)
    (idx : Nat) (e : BufferEntry) (h : bufFind buf idx = some e) :
    ∃ e2, bufFind (applyNameDelta buf tc) idx = some e2 ∧ e2.id = e.id := by
  unfold applyNameDelta
  cases tc.function with
  | none => exact ⟨e, h, rfl⟩
  | some f =>
    by_cases hn : pyTruthy f.name = true
    · simp only [hn, if_true]
      exact bufFind_bufMod_id buf tc.index
        (fun x => ⟨x.id, f.name.getD "", x.arguments⟩) (fun x => rfl) idx e h
    · simp only [hn, if_false]
      exact ⟨e, h, rfl⟩

lemma applyArgsDelta_preserves_id (buf : ToolCallsBuffer) (tc : ToolCallDelta)
    (idx : Nat) (e : BufferEntry) (h : bufFind buf idx = some e) :
    ∃ e2, bufFind (applyArgsDelta buf tc) idx = some e2 ∧ e2.id = e.id := by
  unfold applyArgsDelta
  cases tc.function with
  | none => exact ⟨e, h, rfl⟩
  | some f =>
    by_cases ha : pyTruthy f.arguments = true
    · simp only [ha, if_true]
      exact bufFind_bufMod_id buf tc.index
        (fun x => ⟨x.id, x.name, x.arguments ++ f.arguments.getD ""⟩)
        (fun x => rfl) idx e h
    · simp only [ha, if_false]
      exact ⟨e, h, rfl⟩

lemma applyToolCallDelta_preserves_id (buf : ToolCallsBuffer)
    (tc : ToolCallDelta) (idx : Nat) (e : BufferEntry)
    (h : bufFind buf idx = some e) :
    ∃ e2, bufFind (applyToolCallDelta buf tc) idx = some e2 ∧ e2.id = e.id := by
  have h0 := initBuffer_preserves buf tc idx e h
  obtain ⟨e1, h1, hid1⟩ := applyNameDelta_preserves_id _ tc idx e h0
  obtain ⟨e2, h2, hid2⟩ := applyArgsDelta_preserves_id _ tc idx e1 h1
  exact ⟨e2, h2, hid2.trans hid1⟩

lemma foldl_deltas_preserves_id (tcs : List ToolCallDelta) :
    ∀ (buf : ToolCallsBuffer) (idx : Nat) (e : BufferEntry),
      bufFind buf idx = some e →
      ∃ e2, bufFind (tcs.foldl applyToolCallDelta buf) idx = some e2 ∧
        e2.id = e.id := by
  induction tcs with
  | nil => exact fun buf idx e h => ⟨e, h, rfl⟩
  | cons tc rest ih =>
    intro buf idx e h
    obtain ⟨e1, h1, hid1⟩ := applyToolCallDelta_preserves_id buf tc idx e h
    obtain ⟨e2, h2, hid2⟩ := ih (applyToolCallDelta buf tc) idx e1 h1
    exact ⟨e2, by simpa using h2, hid2.trans hid1⟩

lemma processChunk_preserves_id (buf : ToolCallsBuffer) (c : StreamChunk)
    (idx : Nat) (e : BufferEntry) (h : bufFind buf idx = some e) :
    ∃ e2, bufFind (processChunk buf c).1 idx = some e2 ∧ e2.id = e.id := by
  obtain ⟨choices, u, fp⟩ := c
  cases choices with
  | nil => exact ⟨e, h, rfl⟩
  | cons choice rest =>
    simp only [processChunk, applyChoiceDeltas]
    cases htc : choice.delta.tool_calls with
    | none => exact ⟨e, h, rfl⟩
    | some tcs => exact foldl_deltas_preserves_id tcs buf idx e h

/-- Claim C8, counterexample: the first delta for index 0 carries no id
and a later frame supplies the id abc; the flushed call still carries
the synthesized call_0, not the supplied id. -/
theorem claim8_counterexample :
    stream [⟨[⟨⟨none, some [⟨0, none, none⟩]⟩, none⟩], none, none⟩,
        ⟨[⟨⟨none, some [⟨0, some "abc", none⟩]⟩, none⟩], none, none⟩,
        finishFrame "stop"] none
      = [.tool_call [⟨"call_0", "", .text "\x7b\x7d"⟩], .done "stop" none] ∧
    "call_0" ≠ "abc" :=
  ⟨rfl, by decide⟩

/-- Claim C8, amended: once an id is stored for an index it never
changes across any further frames; and when an index is first observed,
the stored id is the id of that first delta when truthy, the synthesized
call_N derived from the index otherwise — ids supplied by later deltas
are ignored. -/
theorem claim8_call_id_stable :
    (∀ (buf : ToolCallsBuffer) (chunks : List StreamChunk) (idx : Nat)
       (e : BufferEntry), bufFind buf idx = some e →
       ∃ e2, bufFind (processChunks buf chunks).1 idx = some e2 ∧
         e2.id = e.id) ∧
    (∀ (buf : ToolCallsBuffer) (tc : ToolCallDelta),
       bufFind buf tc.index = none →
       ∃ e2, bufFind (applyToolCallDelta buf tc) tc.index = some e2 ∧
         e2.id = pyOrStr tc.id ("call_" ++ toString tc.index)) := by
  constructor
  · intro buf chunks
    induction chunks generalizing buf with
    | nil => exact fun idx e h => ⟨e, h, rfl⟩
    | cons c cs ih =>
      intro idx e h
      obtain ⟨e1, h1, hid1⟩ := processChunk_preserves_id buf c idx e h
      obtain ⟨e2, h2, hid2⟩ := ih (processChunk buf c).1 idx e1 h1
      exact ⟨e2, by simpa [processChunks] using h2, hid2.trans hid1⟩
  · intro buf tc h
    have h0 := initBuffer_fresh buf tc h
    obtain ⟨e1, h1, hid1⟩ := applyNameDelta_preserves_id _ tc tc.index _ h0
    obtain ⟨e2, h2, hid2⟩ := applyArgsDelta_preserves_id _ tc tc.index e1 h1
    exact ⟨e2, h2, hid2.trans hid1⟩

/-- Claim C8, witness: an id observed as abc survives a later frame, and
a fresh id-less delta stores the synthesized id. -/
theorem claim8_witness :
    Option.map BufferEntry.id
        (bufFind (processChunks [(0, ⟨"abc", "", ""⟩)]
          [argFrame "x", finishFrame "stop"]).1 0)
      = some "abc" ∧
    Option.map BufferEntry.id
        (bufFind (applyToolCallDelta [] ⟨7, none, some ⟨some "f", some "x"⟩⟩) 7)
      = some (pyOrStr none ("call_" ++ toString 7)) := by
  constructor
  · obtain ⟨e2, h1, h2⟩ := claim8_call_id_stable.1 [(0, ⟨"abc", "", ""⟩)]
      [argFrame "x", finishFrame "stop"] 0 ⟨"abc", "", ""⟩ rfl
    rw [h1]
    simp [h2]
  · obtain ⟨e2, h1, h2⟩ := claim8_call_id_stable.2 []
      ⟨7, none, some ⟨some "f", some "x"⟩⟩ rfl
    rw [h1]
    simp [h2]

/-! ## Claim C9 (confirmed)

find_skills returns exactly the skills related to the query by the
case-insensitive substring relation over name, description and tags
(each lowered item is tested for occurrence inside the lowered query),
in catalog order, and returns the empty list when no skill matches. -/

/-- Claim C9: find_skills is the filter of the matching relation, and in
particular returns zero skills when nothing matches. -/
theorem claim9_find_skills (skills : List Skill) (query : String) :
    find_skills skills query
      = skills.filter (fun s => skillMatches query s) ∧
    ((∀ s ∈ skills, skillMatches query s = false) →
      find_skills skills query = []) := by
  have pred_eq : ∀ s : Skill,
      (([pyLower s.name, pyLower s.description] ++ s.tags.map pyLower).any
        (fun item => strIn item (pyLower query))) = skillMatches query s := by
    intro s
    simp [skillMatches, List.any_map, Bool.or_assoc, Function.comp_def]
  have main : ∀ (l : List Skill) (acc : List Skill),
      (l.foldl (fun matched skill =>
        if ([pyLower skill.name, pyLower skill.description] ++
            skill.tags.map pyLower).any
            (fun item => strIn item (pyLower query)) then
          matched ++ [skill]
        else matched) acc)
        = acc ++ l.filter (fun s => skillMatches query s) := by
    intro l
    induction l with
    | nil => simp
    | cons s rest ih =>
      intro acc
      simp only [List.foldl_cons]
      rw [ih, pred_eq s]
      by_cases hm : skillMatches query s = true <;>
        simp [hm, List.filter_cons, List.append_assoc]
  have hmain : find_skills skills query
      = skills.filter (fun s => skillMatches query s) := by
    simpa [find_skills] using main skills []
  refine ⟨hmain, fun h => ?_⟩
  rw [hmain]
  exact List.filter_eq_nil_iff.mpr (fun s hs => by simp [h s hs])

/-- A catalog entry used by the witness. -/
def weatherSkill : Skill :=
  ⟨"weather", "Get weather reports", ["weather", "forecast"], "instructions"⟩

/-- Claim C9, witness: no part of the weather skill occurs in the query,
so nothing is returned. -/
theorem claim9_witness :
    find_skills [weatherSkill] "translate this sentence" = [] :=
  (claim9_find_skills [weatherSkill] "translate this sentence").2 (by decide)

/-! ## Claim C10 (corrected)

Every chat_completions request clears the addressed session before
ingesting the request messages, so the ingested list is independent of
any stored history, and a skill-specialized system prompt is prepended
exactly when the request has no system message.  But the ingested list
is not exactly the request messages: a message whose role is not system,
user or assistant (for example a tool message) falls through the
if-elif chain and is dropped.  The session store operations are
modelled from the spec (section 6), since session.py is not part of
src. -/

/-- Claim C10, counterexample: a request containing a tool-role message
produces a session without that message, so the ingested list is not
exactly the request messages preceded by the synthesized prompt. -/
theorem claim10_counterexample :
    prepareSessionMessages [⟨"assistant", some "stale"⟩]
        (fun q => "PROMPT " ++ q)
        [⟨"user", some "hi"⟩, ⟨"tool", some "x"⟩]
      = [⟨"system", some "PROMPT hi"⟩, ⟨"user", some "hi"⟩] ∧
    ([⟨"system", some "PROMPT hi"⟩, ⟨"user", some "hi"⟩] : Session)
      ≠ [⟨"system", some "PROMPT hi"⟩, ⟨"user", some "hi"⟩,
         ⟨"tool", some "x"⟩] :=
  ⟨rfl, by decide⟩

/-- Claim C10, amended: for every stored history, prompt assembler and
request message list, the prepared session is the synthesized
skill-specialized system prompt (present exactly when the request has no
system message, specialized to the latest truthy user message) followed
by the request messages of role system, user or assistant in order,
other roles dropped; the stored history does not influence the result
(the session is cleared first). -/
theorem claim10_session_prep (stored : Session)
    (get_full_system_prompt : String → String)
    (messages : List ChatMessage) :
    prepareSessionMessages stored get_full_system_prompt messages
      = (if messages.any (fun m => m.role == "system") then []
         else [⟨"system",
           some (get_full_system_prompt (latestUserQuery messages))⟩]) ++
        messages.filterMap keptMessage ∧
    ∀ stored2 : Session,
      prepareSessionMessages stored2 get_full_system_prompt messages
        = prepareSessionMessages stored get_full_system_prompt messages := by
  have main : ∀ (l : List ChatMessage) (init : Session),
      (l.foldl (fun s m =>
        if m.role = "system" then Session.add_system_message s m.content
        else if m.role = "user" then Session.add_user_message s m.content
        else if m.role = "assistant" then
          Session.add_assistant_message s m.content
        else s) init)
        = init ++ l.filterMap keptMessage := by
    intro l
    induction l with
    | nil => simp
    | cons m rest ih =>
      intro init
      simp only [List.foldl_cons]
      rw [ih]
      by_cases h1 : m.role = "system"
      · simp [h1, Session.add_system_message, keptMessage,
          List.filterMap_cons, List.append_assoc]
      · by_cases h2 : m.role = "user"
        · simp [h1, h2, Session.add_user_message, keptMessage,
            List.filterMap_cons, List.append_assoc]
        · by_cases h3 : m.role = "assistant"
          · simp [h1, h2, h3, Session.add_assistant_message, keptMessage,
              List.filterMap_cons, List.append_assoc]
          · simp [h1, h2, h3, keptMessage, List.filterMap_cons]
  have key : ∀ st : Session,
      prepareSessionMessages st get_full_system_prompt messages
        = (if messages.any (fun m => m.role == "system") then []
           else [⟨"system",
             some (get_full_system_prompt (latestUserQuery messages))⟩]) ++
          messages.filterMap keptMessage := by
    intro st
    by_cases hsys : (messages.any (fun m => m.role == "system")) = true
    · simp only [prepareSessionMessages, Session.clear, hsys, if_true]
      rw [main]
    · have hsys2 : (messages.any (fun m => m.role == "system")) = false := by
        simpa using hsys
      simp only [prepareSessionMessages, Session.clear, hsys2,
        Bool.false_eq_true, if_false]
      rw [main]
      simp [hsys2, Session.add_system_message]
  exact ⟨key stored, fun st2 => (key st2).trans (key stored).symm⟩

end Clawdbot
